import Mathlib

/-!
# Shallow embedding of the Fivox `EventSource` event store

This file embeds the core of `src/fivox/eventSource.cpp`: the columnar
event buffer (`EventSource::Impl`), its binary/ASCII persistence codec
(`readBinary`, `readAscii`, `write`, `read`), bounding-box maintenance
(`update`), the frame-range arithmetic (`getFrameRange`) and the
chunked-load contract (`load`), and proves theorems settling the
specification claims about them.

Modelling conventions:

* Machine `float` values are modelled as exact rationals (`ℚ`).  The
  operations the claims quantify over — copying values between memory
  and files, computing `1.f / r`, and comparing `|r|` against
  `FLT_EPSILON` — are modelled by the corresponding exact operations.
* The raw event block allocated by `posix_memalign` is modelled as a
  total function `Nat → ℚ` of memory cells.  Freshly allocated memory
  has arbitrary contents, so every operation that may allocate takes a
  `junk : Nat → ℚ` oracle giving the contents of a fresh block (the
  `calloc` fallback path corresponds to `junk = fun k => 0`).
* `Buffer.allocCount` is ghost instrumentation: it counts the calls to
  the allocator, so that "a reallocation happened" is directly
  observable in theorems.
* Files are modelled through the views the two parsers take of the
  byte stream: `BinFile` is the view of `readBinary` (byte size, the
  two leading `uint32` words, and the float array), a `List Line` is
  the view of `readAscii` (the lines produced by `getline`, with the
  delimiter stripped), and `DiskFile` packages the two views of one
  file for `EventSource::read`, which hands the same filename to both
  parsers in turn.
-/

namespace Fivox

/-- A 3-component vector of float values, mirroring `Vector3f`. -/
structure Vec3 where
  x : ℚ
  y : ℚ
  z : ℚ
  deriving DecidableEq

/-- An axis-aligned bounding box over `Vec3`, mirroring `AABBf`
(`vmml::AABB<float>`, an external dependency modelled from its
semantics): a default-constructed box is empty (`none`); `merge`
extends the min/max corners componentwise.  (In `vmml` the empty box is
represented by `min = FLT_MAX, max = -FLT_MAX`; merging any
representable point into it yields exactly that point as both corners,
which is what `none` merges to here.) -/
abbrev AABB := Option (Vec3 × Vec3)

/-- `AABBf::merge(point)`: componentwise min/max extension. -/
def mergeBox (b : AABB) (p : Vec3) : AABB :=
  match b with
  | none => some (p, p)
  | some (lo, hi) =>
      some (⟨min lo.x p.x, min lo.y p.y, min lo.z p.z⟩,
            ⟨max hi.x p.x, max hi.y p.y, max hi.z p.z⟩)

/-- Membership of a point in a bounding box (inclusive boundary). -/
def boxContains (b : AABB) (p : Vec3) : Prop :=
  match b with
  | none => False
  | some (lo, hi) =>
      lo.x ≤ p.x ∧ p.x ≤ hi.x ∧ lo.y ≤ p.y ∧ p.y ≤ hi.y ∧
      lo.z ≤ p.z ∧ p.z ≤ hi.z

/-- Box inclusion: `a` is contained in `b` (the empty box is contained
in every box). -/
def boxLE (a b : AABB) : Prop :=
  match a with
  | none => True
  | some (lo, hi) =>
      match b with
      | none => False
      | some (lo', hi') =>
          lo'.x ≤ lo.x ∧ lo'.y ≤ lo.y ∧ lo'.z ≤ lo.z ∧
          hi.x ≤ hi'.x ∧ hi.y ≤ hi'.y ∧ hi.z ≤ hi'.z

instance (b : AABB) (p : Vec3) : Decidable (boxContains b p) := by
  unfold boxContains
  match b with
  | none => exact inferInstance
  | some (lo, hi) => exact inferInstance

instance (a b : AABB) : Decidable (boxLE a b) := by
  unfold boxLE
  match a with
  | none => exact inferInstance
  | some (lo, hi) =>
    match b with
    | none => exact inferInstance
    | some (lo', hi') => exact inferInstance

/-- The in-memory state of `EventSource::Impl` that the claims are
about: the logical event count `numEvents`, the allocation capacity
`allocSize`, the raw aligned block `events` (one float per cell), and
the bounding box.  `allocCount` is ghost instrumentation counting
allocator calls (see the module docstring). -/
structure Buffer where
  numEvents : Nat
  allocSize : Nat
  allocCount : Nat
  events : Nat → ℚ
  bbox : AABB

/-- `std::numeric_limits<float>::epsilon()` = 2⁻²³. -/
def eps : ℚ := 1 / 8388608

/-- `std::abs` on floats: negate iff negative. -/
def absQ (q : ℚ) : ℚ := if q < 0 then -q else q

/-- `EventSource::Impl::resize`: sets `numEvents`; returns early (no
reallocation) only when the new size is *strictly* below `allocSize`;
otherwise performs a fresh allocation of `5 * n` floats whose initial
contents are the allocator-dependent `junk`. -/
def resize (junk : Nat → ℚ) (n : Nat) (st : Buffer) : Buffer :=
  if n < st.allocSize then { st with numEvents := n }
  else
    { st with numEvents := n, allocSize := n,
              allocCount := st.allocCount + 1, events := junk }

/-- `EventSource::Impl::update`: if `i` is out of bounds
(`numEvents ≤ i`), warns and performs no write.  Otherwise merges `pos`
into the bounding box and writes the five cells of event `i` under the
structure-of-arrays layout `cell (i + numEvents * offset)` — except
that the radius cell is written (as the reciprocal `1 / rad`) only
when `|rad| > ε`; there is no else-branch, so a near-zero radius
leaves the radius cell untouched. -/
def update (i : Nat) (pos : Vec3) (rad val : ℚ) (st : Buffer) : Buffer :=
  if st.numEvents ≤ i then st
  else
    let n := st.numEvents
    { st with
      bbox := mergeBox st.bbox pos
      events := fun k =>
        if k = i + n * 4 then val
        else if k = i + n * 3 ∧ eps < absQ rad then 1 / rad
        else if k = i + n * 2 then pos.z
        else if k = i + n * 1 then pos.y
        else if k = i + n * 0 then pos.x
        else st.events k }

/-- `Impl::getPositionsX`: base address `events + numEvents * POSX`. -/
def getPositionsX (st : Buffer) (i : Nat) : ℚ := st.events (i + st.numEvents * 0)

/-- `Impl::getPositionsY`: base address `events + numEvents * POSY`. -/
def getPositionsY (st : Buffer) (i : Nat) : ℚ := st.events (i + st.numEvents * 1)

/-- `Impl::getPositionsZ`: base address `events + numEvents * POSZ`. -/
def getPositionsZ (st : Buffer) (i : Nat) : ℚ := st.events (i + st.numEvents * 2)

/-- `Impl::getRadii`: base address `events + numEvents * RADIUS`. -/
def getRadii (st : Buffer) (i : Nat) : ℚ := st.events (i + st.numEvents * 3)

/-- `Impl::getValues`: base address `events + numEvents * VALUE`. -/
def getValues (st : Buffer) (i : Nat) : ℚ := st.events (i + st.numEvents * 4)

/-! ## Binary persistence codec -/

/-- The binary file magic word `0xfebf`. -/
def magic : Nat := 0xfebf

/-- The binary file format version word. -/
def version : Nat := 1

/-- `_getBinarySize`: total byte size of a binary file holding `n`
events: `n * 5 * sizeof(float) + sizeof(magic) + sizeof(version)`. -/
def binarySize (n : Nat) : Nat := n * 5 * 4 + 8

/-- The view `readBinary` takes of a memory-mapped file: its byte
`size`, the two leading `uint32` words (`iData[0]`, `iData[1]`), and
the words reinterpreted as floats (`fData[k]`, meaningful for
`k ≥ 2`). -/
structure BinFile where
  size : Nat
  magicWord : Nat
  versionWord : Nat
  floats : Nat → ℚ

/-- The binary branch of `EventSource::write`: emits magic and version
words followed by the five fields of each event in file order
`posX posY posZ radius value`, each read from the buffer's columns at
their current layout (`getPositionsX()[i] = events (i + numEvents*0)`,
…).  Float word `2 + 5*i + j` therefore holds
`events (i + numEvents*j)`. -/
def writeBinary (st : Buffer) : BinFile :=
  { size := binarySize st.numEvents
    magicWord := magic
    versionWord := version
    floats := fun k =>
      if 2 ≤ k ∧ k < 2 + 5 * st.numEvents then
        st.events ((k - 2) / 5 + st.numEvents * ((k - 2) % 5))
      else 0 }

/-- The event-reading loop shared by `readBinary`
(`for i < n: update(i, (X i, Y i, Z i), R i, V i)`), generalized over
the per-row field functions. -/
def applyRows (X Y Z R V : Nat → ℚ) (n : Nat) (st : Buffer) : Buffer :=
  (List.range n).foldl (fun s i => update i ⟨X i, Y i, Z i⟩ (R i) (V i) s) st

/-- `EventSource::Impl::readBinary`: fails on an empty file, a wrong
magic word, a missing or wrong version word, or when the declared
payload size does not match the byte size; otherwise resizes to the
event count computed from the file size and replays every event
through `update`. -/
def readBinary (junk : Nat → ℚ) (f : BinFile) (st : Buffer) : Bool × Buffer :=
  let nElems := f.size / 4
  if nElems = 0 then (false, st)
  else if f.magicWord ≠ magic then (false, st)
  else if nElems ≤ 1 ∨ f.versionWord ≠ version then (false, st)
  else
    let n := (nElems - 2) / 5
    if binarySize n < f.size then (false, st)
    else
      (true,
       applyRows (fun i => f.floats (2 + 5 * i))
                 (fun i => f.floats (2 + 5 * i + 1))
                 (fun i => f.floats (2 + 5 * i + 2))
                 (fun i => f.floats (2 + 5 * i + 3))
                 (fun i => f.floats (2 + 5 * i + 4))
                 n (resize junk n st))

/-! ## ASCII persistence codec

`readAscii` works on the lines produced by `std::getline` (delimiter
stripped).  The C string functions it relies on (`atoi`, `atof`,
`find`, `find_last_of`, `substr`, `operator>>` tokenization) are
modelled below on `List Char`. -/

/-- A line of a text file, as a list of characters. -/
abbrev Line := List Char

/-- `line[0]` with C++ semantics: `std::string::operator[](0)` on an
empty string returns the null character. -/
def cppChar0 (l : Line) : Char := l.headD (Char.ofNat 0)

/-- Whitespace as classified by `isspace` in the C locale (used both
by `operator>>` tokenization and by `atoi`/`atof`). -/
def isSpaceC (c : Char) : Bool :=
  c = ' ' ∨ c = '\t' ∨ c = '\n' ∨ c = Char.ofNat 11 ∨ c = Char.ofNat 12 ∨
  c = Char.ofNat 13

/-- Value of a digit string (most significant first). -/
def digitsToNat (ds : Line) : Nat :=
  ds.foldl (fun a c => 10 * a + (c.toNat - 48)) 0

/-- C `atoi`: skip leading whitespace, then an optional sign, then
leading decimal digits; `0` when no digits are present. -/
def atoi (l : Line) : Int :=
  let l1 := l.dropWhile fun c => isSpaceC c
  let sgn : Int := if cppChar0 l1 = '-' then -1 else 1
  let l2 := if cppChar0 l1 = '-' ∨ cppChar0 l1 = '+' then l1.tail else l1
  sgn * (digitsToNat (l2.takeWhile Char.isDigit) : Int)

/-- The `int → size_t` conversion applied when the result of `atoi`
is passed to `resize`: reduction modulo 2⁶⁴. -/
def sizeTOfInt (i : Int) : Nat := (i % (2 ^ 64 : Int)).toNat

/-- The fields of a decimal float literal as scanned by C `atof`:
sign, integer digits, fraction digits and the (signed) exponent. -/
structure FloatText where
  neg : Bool
  intDigits : Line
  fracDigits : Line
  expo : Int
  deriving DecidableEq

/-- The scanning pass of C `atof`: skip leading whitespace, optional
sign, integer digits, optional fraction, optional exponent (the
exponent counts only when it has at least one digit).  (The
hexadecimal/`inf`/`nan` forms of `strtod` are outside the modelled
input range.) -/
def atofParse (l : Line) : FloatText :=
  let l1 := l.dropWhile fun c => isSpaceC c
  let neg := cppChar0 l1 == '-'
  let l2 := if cppChar0 l1 = '-' ∨ cppChar0 l1 = '+' then l1.tail else l1
  let intDigits := l2.takeWhile Char.isDigit
  let l3 := l2.drop intDigits.length
  let hasDot := cppChar0 l3 = '.'
  let fracDigits := if hasDot then l3.tail.takeWhile Char.isDigit else []
  let l4 := if hasDot then l3.tail.drop fracDigits.length else l3
  let expo : Int :=
    if cppChar0 l4 = 'e' ∨ cppChar0 l4 = 'E' then
      let l5 := l4.tail
      let esgn : Int := if cppChar0 l5 = '-' then -1 else 1
      let l6 := if cppChar0 l5 = '-' ∨ cppChar0 l5 = '+' then l5.tail else l5
      let eds := l6.takeWhile Char.isDigit
      if eds.isEmpty then 0 else esgn * (digitsToNat eds : Int)
    else 0
  ⟨neg, intDigits, fracDigits, expo⟩

/-- The numeric value of the scanned fields:
`±(int + frac/10^len) * 10^expo` (`0` when no mantissa digits are
present). -/
def atofVal (p : FloatText) : ℚ :=
  (if p.neg then (-1 : ℚ) else 1) *
    ((digitsToNat p.intDigits : ℚ) +
      (digitsToNat p.fracDigits : ℚ) / (10 : ℚ) ^ p.fracDigits.length) *
    (10 : ℚ) ^ p.expo

/-- C `atof` on decimal inputs: scan, then assemble the value. -/
def atof (l : Line) : ℚ := atofVal (atofParse l)

/-- `std::string::find(pat) != npos`: substring containment. -/
def containsSub (pat l : Line) : Bool :=
  (List.range (l.length + 1)).any fun k => pat.isPrefixOf (l.drop k)

/-- `line.find_last_of(" \t")`: index of the last space or tab, if
any. -/
def findLastSpaceTab (l : Line) : Option Nat :=
  (List.range l.length).foldl
    (fun acc k =>
      if l.getD k (Char.ofNat 0) = ' ' ∨ l.getD k (Char.ofNat 0) = '\t' then
        some k
      else acc)
    none

/-- `operator>>` tokenization: split on C whitespace, dropping empty
tokens. -/
def splitTokens (l : Line) : List Line :=
  let step := fun c (acc : Line × List Line) =>
    if isSpaceC c then ([], if acc.1.isEmpty then acc.2 else acc.1 :: acc.2)
    else (c :: acc.1, acc.2)
  let r := l.foldr step ([], [])
  if r.1.isEmpty then r.2 else r.1 :: r.2

/-- The literal phrase searched for by `readAscii`. -/
def countPhrase : Line := "Number of events: ".toList

/-- The argument handed to `resize` by a count line:
`line.substr(line.find_last_of(" \t") + 1)`.  When there is no space
or tab, `npos + 1` wraps to `0` and the whole line is taken. -/
def countArg (line : Line) : Line :=
  match findLastSpaceTab line with
  | some p => line.drop (p + 1)
  | none => line

/-- The `getline` loop of `EventSource::Impl::readAscii`.  `index` is
the running event ordinal.  A line whose first character is `#` (or
`\n`, which `getline` never leaves in place) is skipped; a line
containing the count phrase resizes the buffer to the integer after
its last space or tab (`substr(npos + 1)` wraps to `substr(0)` when
there is none); any other line fails the read when the buffer is
empty, and otherwise must split into exactly 5 tokens, which are
passed through `atof` to `update`.  When the loop exhausts the file,
the final `getline` has set `failbit`, so the concluding
`file.good()` is `false`. -/
def readAsciiLines (junk : Nat → ℚ) :
    List Line → Nat → Buffer → Bool × Buffer
  | [], _, st => (false, st)
  | line :: rest, index, st =>
    if cppChar0 line = '#' ∨ cppChar0 line = '\n' then
      readAsciiLines junk rest index st
    else if containsSub countPhrase line then
      readAsciiLines junk rest index
        (resize junk (sizeTOfInt (atoi (countArg line))) st)
    else if st.numEvents = 0 then (false, st)
    else
      let event := (splitTokens line).map atof
      if event.length ≠ 5 then (false, st)
      else
        readAsciiLines junk rest (index + 1)
          (update index ⟨event.getD 0 0, event.getD 1 0, event.getD 2 0⟩
            (event.getD 3 0) (event.getD 4 0) st)

/-- `EventSource::Impl::readAscii` on an opened file. -/
def readAscii (junk : Nat → ℚ) (lines : List Line) (st : Buffer) :
    Bool × Buffer :=
  readAsciiLines junk lines 0 st

/-- One on-disk file, through the two views the parsers take of its
byte stream: `bin` is how `readBinary` maps and reinterprets the
bytes, `text` is the line sequence `readAscii` obtains from `getline`
on the same bytes. -/
structure DiskFile where
  bin : BinFile
  text : List Line

/-- `EventSource::read`: try the binary parser; on *any* failure fall
through to the ASCII parser on the same file. -/
def read (junk : Nat → ℚ) (f : DiskFile) (st : Buffer) : Bool × Buffer :=
  match readBinary junk f.bin st with
  | (true, st1) => (true, st1)
  | (false, st1) => readAscii junk f.text st1

/-! ## Frame/time controller and chunked-load contract -/

/-- The two source kinds distinguished by `getFrameRange`. -/
inductive SourceType where
  | event
  | frame
  deriving DecidableEq

/-- `EventSource::getFrameRange`, parametrized by the virtual
`_getType()` and `_getTimeRange()` (= `(t0, t1)`) of the concrete
source and the configured `dt` and `duration`.  The `float → uint32`
conversions of the `Vector2ui` constructor are modelled by `Int.toNat`
(the identity on the representable non-negative range; a negative
operand is undefined behaviour in the source). -/
def getFrameRange (ty : SourceType) (t0 t1 dt duration : ℚ) : Nat × Nat :=
  match ty with
  | .event =>
      let endTime := t1 - duration
      if endTime < t0 then (0, 0)
      else ((⌊t0 / dt⌋).toNat, (⌊endTime / dt⌋ + 1).toNat)
  | .frame => ((⌊t0 / dt⌋).toNat, (⌈t1 / dt⌉).toNat)

/-- `EventSource::load(chunkIndex, numChunks)`: throws when
`numChunks == 0` or when the `size_t` sum `chunkIndex + numChunks` —
computed modulo 2⁶⁴, since unsigned C++ addition wraps — exceeds the
chunk count reported by the source (`getNumChunks()`, here the
parameter `total`); only on valid input does it invoke the
source-specific `_load` delegate.  The pair returns the error-or-count
alongside the buffer state after the call. -/
def load (total : Nat) (delegate : Nat → Nat → Buffer → Int × Buffer)
    (chunkIndex numChunks : Nat) (st : Buffer) :
    Except String Int × Buffer :=
  if numChunks = 0 then
    (.error "EventSource::load: numChunks must be > 0", st)
  else if total < (chunkIndex + numChunks) % 2 ^ 64 then
    (.error "EventSource::load: Out of range", st)
  else
    let r := delegate chunkIndex numChunks st
    (.ok r.1, r.2)

/-- `EventSource::setBoundingBox`: replaces the bounding box. -/
def setBoundingBox (b : AABB) (st : Buffer) : Buffer := { st with bbox := b }

/-! ## Basic facts about the buffer operations -/

theorem resize_numEvents (junk : Nat → ℚ) (n : Nat) (st : Buffer) :
    (resize junk n st).numEvents = n := by
  unfold resize; split <;> rfl

theorem update_numEvents (i : Nat) (pos : Vec3) (rad val : ℚ) (st : Buffer) :
    (update i pos rad val st).numEvents = st.numEvents := by
  unfold update; split <;> rfl

theorem update_allocSize (i : Nat) (pos : Vec3) (rad val : ℚ) (st : Buffer) :
    (update i pos rad val st).allocSize = st.allocSize := by
  unfold update; split <;> rfl

theorem update_allocCount (i : Nat) (pos : Vec3) (rad val : ℚ) (st : Buffer) :
    (update i pos rad val st).allocCount = st.allocCount := by
  unfold update; split <;> rfl

theorem update_bbox (i : Nat) (pos : Vec3) (rad val : ℚ) (st : Buffer) :
    (update i pos rad val st).bbox =
      if st.numEvents ≤ i then st.bbox else mergeBox st.bbox pos := by
  unfold update; split <;> simp_all

theorem update_events_spec (i : Nat) (pos : Vec3) (rad val : ℚ) (st : Buffer)
    (h : i < st.numEvents) (k : Nat) :
    (update i pos rad val st).events k =
      (if k = i + st.numEvents * 4 then val
       else if k = i + st.numEvents * 3 ∧ eps < absQ rad then 1 / rad
       else if k = i + st.numEvents * 2 then pos.z
       else if k = i + st.numEvents * 1 then pos.y
       else if k = i + st.numEvents * 0 then pos.x
       else st.events k) := by
  unfold update
  rw [if_neg (not_le.mpr h)]

/-- Injectivity of the structure-of-arrays cell layout
`cell (i + N * j)` in the event ordinal and the field offset. -/
theorem cellInj (N i j i' j' : Nat) (hi : i < N) (hi' : i' < N)
    (h : i + N * j = i' + N * j') : i = i' ∧ j = j' := by
  have h1 : (i + N * j) % N = i := by
    rw [Nat.add_mul_mod_self_left, Nat.mod_eq_of_lt hi]
  have h2 : (i' + N * j') % N = i' := by
    rw [Nat.add_mul_mod_self_left, Nat.mod_eq_of_lt hi']
  have hii : i = i' := by rw [← h1, h, h2]
  subst hii
  refine ⟨rfl, ?_⟩
  have hj : N * j = N * j' := by omega
  exact Nat.eq_of_mul_eq_mul_left (by omega) hj

theorem cellNe (N i i' j j' : Nat) (hi : i < N) (hi' : i' < N)
    (hne : i ≠ i' ∨ j ≠ j') : i + N * j ≠ i' + N * j' := by
  intro h
  rcases cellInj N i j i' j' hi hi' h with ⟨h1, h2⟩
  tauto

/-! ### Stepping lemmas for the ASCII reading loop -/

theorem readAsciiLines_nil (junk : Nat → ℚ) (index : Nat) (st : Buffer) :
    readAsciiLines junk [] index st = (false, st) := rfl

theorem readAsciiLines_skip (junk : Nat → ℚ) (line : Line) (rest : List Line)
    (index : Nat) (st : Buffer)
    (h : cppChar0 line = '#' ∨ cppChar0 line = '\n') :
    readAsciiLines junk (line :: rest) index st =
      readAsciiLines junk rest index st := by
  simp only [readAsciiLines]
  rw [if_pos h]

theorem readAsciiLines_count (junk : Nat → ℚ) (line : Line) (rest : List Line)
    (index : Nat) (st : Buffer)
    (h1 : ¬(cppChar0 line = '#' ∨ cppChar0 line = '\n'))
    (h2 : containsSub countPhrase line = true) :
    readAsciiLines junk (line :: rest) index st =
      readAsciiLines junk rest index
        (resize junk (sizeTOfInt (atoi (countArg line))) st) := by
  simp only [readAsciiLines]
  rw [if_neg h1, if_pos h2]

theorem readAsciiLines_noEvents (junk : Nat → ℚ) (line : Line)
    (rest : List Line) (index : Nat) (st : Buffer)
    (h1 : ¬(cppChar0 line = '#' ∨ cppChar0 line = '\n'))
    (h2 : containsSub countPhrase line = false)
    (h3 : st.numEvents = 0) :
    readAsciiLines junk (line :: rest) index st = (false, st) := by
  simp only [readAsciiLines]
  rw [if_neg h1, if_neg (by simp [h2]), if_pos h3]

theorem readAsciiLines_badLine (junk : Nat → ℚ) (line : Line)
    (rest : List Line) (index : Nat) (st : Buffer)
    (h1 : ¬(cppChar0 line = '#' ∨ cppChar0 line = '\n'))
    (h2 : containsSub countPhrase line = false)
    (h3 : st.numEvents ≠ 0)
    (h4 : ((splitTokens line).map atof).length ≠ 5) :
    readAsciiLines junk (line :: rest) index st = (false, st) := by
  simp only [readAsciiLines]
  rw [if_neg h1, if_neg (by simp [h2]), if_neg h3, if_pos h4]

theorem readAsciiLines_dataLine (junk : Nat → ℚ) (line : Line)
    (rest : List Line) (index : Nat) (st : Buffer)
    (h1 : ¬(cppChar0 line = '#' ∨ cppChar0 line = '\n'))
    (h2 : containsSub countPhrase line = false)
    (h3 : st.numEvents ≠ 0)
    (h4 : ((splitTokens line).map atof).length = 5) :
    readAsciiLines junk (line :: rest) index st =
      readAsciiLines junk rest (index + 1)
        (update index
          ⟨((splitTokens line).map atof).getD 0 0,
           ((splitTokens line).map atof).getD 1 0,
           ((splitTokens line).map atof).getD 2 0⟩
          (((splitTokens line).map atof).getD 3 0)
          (((splitTokens line).map atof).getD 4 0) st) := by
  simp only [readAsciiLines]
  rw [if_neg h1, if_neg (by simp [h2]), if_neg h3, if_neg (by simp [h4])]

/-! ## Claim C2 -/

/-- Claim C2, counterexample to the claim as stated: with a buffer of
one event whose radius cell holds `5`, in-bounds
`update(0, (1,2,3), 0, 7)` does *not* write the radius cell as the
literal radius `0`; the cell keeps its prior value `5`, because the
radius store has no else-branch for `|radius| ≤ ε`. -/
theorem C2_counterexample :
    getRadii (update 0 ⟨1, 2, 3⟩ 0 7 ⟨1, 1, 0, fun _ => 5, none⟩) 0 = 5 ∧
    (5 : ℚ) ≠ 0 ∧ ¬ eps < absQ 0 := by
  refine ⟨?_, by norm_num, by norm_num [eps, absQ]⟩
  rw [getRadii, update_numEvents, update_events_spec _ _ _ _ _ (by decide)]
  norm_num [eps, absQ]

/-- Claim C2, amended: an in-bounds `update(i, pos, radius, value)`
merges `pos` into the bounding box, writes `pos` and `value` verbatim
into the position and value cells at ordinal `i`, writes the radius
cell as `1/radius` when `|radius| > ε`, and when `|radius| ≤ ε` leaves
the radius cell entirely unchanged (it does not store the literal
radius); all other cells are untouched. -/
theorem C2_update_amended (st : Buffer) (i : Nat) (pos : Vec3) (rad val : ℚ)
    (h : i < st.numEvents) :
    (update i pos rad val st).bbox = mergeBox st.bbox pos ∧
    (update i pos rad val st).events (i + st.numEvents * 0) = pos.x ∧
    (update i pos rad val st).events (i + st.numEvents * 1) = pos.y ∧
    (update i pos rad val st).events (i + st.numEvents * 2) = pos.z ∧
    (update i pos rad val st).events (i + st.numEvents * 4) = val ∧
    (eps < absQ rad →
      (update i pos rad val st).events (i + st.numEvents * 3) = 1 / rad) ∧
    (¬ eps < absQ rad →
      (update i pos rad val st).events (i + st.numEvents * 3) =
        st.events (i + st.numEvents * 3)) ∧
    (∀ k, (∀ j, j < 5 → k ≠ i + st.numEvents * j) →
      (update i pos rad val st).events k = st.events k) := by
  have hb : (update i pos rad val st).bbox = mergeBox st.bbox pos := by
    rw [update_bbox, if_neg (not_le.mpr h)]
  refine ⟨hb, ?_, ?_, ?_, ?_, ?_, ?_, ?_⟩
  · rw [update_events_spec _ _ _ _ _ h, if_neg (by omega),
      if_neg (fun hc => absurd hc.1 (by omega)), if_neg (by omega),
      if_neg (by omega), if_pos rfl]
  · rw [update_events_spec _ _ _ _ _ h, if_neg (by omega),
      if_neg (fun hc => absurd hc.1 (by omega)), if_neg (by omega),
      if_pos rfl]
  · rw [update_events_spec _ _ _ _ _ h, if_neg (by omega),
      if_neg (fun hc => absurd hc.1 (by omega)), if_pos rfl]
  · rw [update_events_spec _ _ _ _ _ h, if_pos rfl]
  · intro hrad
    rw [update_events_spec _ _ _ _ _ h, if_neg (by omega), if_pos ⟨rfl, hrad⟩]
  · intro hrad
    rw [update_events_spec _ _ _ _ _ h, if_neg (by omega),
      if_neg (fun hc => absurd hc.2 hrad), if_neg (by omega),
      if_neg (by omega), if_neg (by omega)]
  · intro k hk
    rw [update_events_spec _ _ _ _ _ h,
      if_neg (hk 4 (by omega)),
      if_neg (fun hc => absurd hc.1 (hk 3 (by omega))),
      if_neg (hk 2 (by omega)), if_neg (hk 1 (by omega)),
      if_neg (hk 0 (by omega))]

/-- Claim C2, witness: the amended theorem evaluated at a concrete
in-bounds update with radius `4` (inverted to `1/4`) on a two-event
buffer. -/
theorem C2_witness :
    (0 : Nat) < (2 : Nat) ∧
    (update 0 ⟨1, 2, 3⟩ 4 7 ⟨2, 2, 0, fun _ => 9, none⟩).events (0 + 2 * 3) =
      1 / 4 := by
  refine ⟨by norm_num, ?_⟩
  have h := C2_update_amended ⟨2, 2, 0, fun _ => 9, none⟩ 0 ⟨1, 2, 3⟩ 4 7
    (by decide)
  exact (h.2.2.2.2.2.1 (by norm_num [eps, absQ])).trans rfl

/-! ## Claim C5 -/

/-- Claim C5: `getFrameRange` for an event-kind source with
`t0 = 0, t1 = 10, dt = 2, duration = 3` yields `[0, 4)`; with
`duration = 11` the aggregation window exceeds the interval and the
range is empty `[0, 0)`; a frame-kind source with the same
`t0, t1, dt` yields `[0, 5)`. -/
theorem C5_frameRange_values :
    getFrameRange .event 0 10 2 3 = (0, 4) ∧
    getFrameRange .event 0 10 2 11 = (0, 0) ∧
    getFrameRange .frame 0 10 2 3 = (0, 5) := by
  refine ⟨?_, ?_, ?_⟩ <;> simp only [getFrameRange] <;>
    norm_num [Prod.ext_iff] <;> decide

/-! ## Claim C9 -/

/-- Claim C9, counterexample to the claim as stated: the guard at
`eventSource.cpp:498` computes `chunkIndex + numChunks` in `size_t`,
which wraps modulo 2⁶⁴.  For `chunkIndex = 2⁶⁴ − 1, numChunks = 2`
with 5 reported chunks, the mathematical sum exceeds the chunk count,
yet the wrapped sum is `1 ≤ 5`: the validation passes, no exception is
raised, and the `_load` delegate runs and mutates the buffer — so
"fails fatally whenever `chunkIndex + numChunks` exceeds the reported
chunk count, never mutating" is false of the program. -/
theorem C9_counterexample :
    (5 : Nat) < 2 ^ 64 - 1 + 2 ∧
    (load 5 (fun _ _ b => (7, { b with numEvents := 99 })) (2 ^ 64 - 1) 2
        ⟨1, 1, 0, fun _ => 0, none⟩).1 = .ok 7 ∧
    (load 5 (fun _ _ b => (7, { b with numEvents := 99 })) (2 ^ 64 - 1) 2
        ⟨1, 1, 0, fun _ => 0, none⟩).2.numEvents = 99 ∧
    (99 : Nat) ≠ 1 := by
  refine ⟨by norm_num, ?_, ?_, by norm_num⟩
  · have h0 : ¬ ((2 : Nat) = 0) := by norm_num
    have h1 : ¬ ((5 : Nat) < (2 ^ 64 - 1 + 2) % 2 ^ 64) := by
      have : (2 ^ 64 - 1 + 2) % 2 ^ 64 = 1 := by norm_num
      rw [this]; norm_num
    unfold load
    rw [if_neg h0, if_neg h1]
  · have h0 : ¬ ((2 : Nat) = 0) := by norm_num
    have h1 : ¬ ((5 : Nat) < (2 ^ 64 - 1 + 2) % 2 ^ 64) := by
      have : (2 ^ 64 - 1 + 2) % 2 ^ 64 = 1 := by norm_num
      rw [this]; norm_num
    unfold load
    rw [if_neg h0, if_neg h1]

/-- Claim C9, amended: `load(chunkIndex, numChunks)` fails fatally
(throws) when `numChunks = 0` or when the `size_t` sum
`(chunkIndex + numChunks) mod 2⁶⁴` exceeds the chunk count reported by
`getNumChunks()`, and in either case the event buffer is returned
unchanged: the delegate `_load` is never invoked.  When the sum does
not overflow (`chunkIndex + numChunks < 2⁶⁴`, every realistic call),
this is exactly the condition the original claim states; an
overflowing sum wraps and can bypass the range check (see the
counterexample). -/
theorem C9_load_amended (total : Nat)
    (delegate : Nat → Nat → Buffer → Int × Buffer)
    (chunkIndex numChunks : Nat) (st : Buffer)
    (h : numChunks = 0 ∨ total < (chunkIndex + numChunks) % 2 ^ 64) :
    (∃ e, (load total delegate chunkIndex numChunks st).1 = .error e) ∧
    (load total delegate chunkIndex numChunks st).2 = st := by
  unfold load
  rcases h with h | h
  · rw [if_pos h]; exact ⟨⟨_, rfl⟩, rfl⟩
  · by_cases h0 : numChunks = 0
    · rw [if_pos h0]; exact ⟨⟨_, rfl⟩, rfl⟩
    · rw [if_neg h0, if_pos h]; exact ⟨⟨_, rfl⟩, rfl⟩

/-- Claim C9, witness: a concrete non-overflowing out-of-range request
(2 chunks from index 2 with only 3 chunks reported) errors out and
leaves the concrete buffer unchanged, even for a delegate that would
mutate. -/
theorem C9_witness :
    ((0 : Nat) = 0 ∨ (3 : Nat) < (2 + 2) % 2 ^ 64) ∧
    (load 3 (fun _ _ b => (7, { b with numEvents := 99 })) 2 2
        ⟨1, 1, 0, fun _ => 0, none⟩).2 = ⟨1, 1, 0, fun _ => 0, none⟩ := by
  refine ⟨Or.inr (by norm_num), ?_⟩
  exact (C9_load_amended 3 _ 2 2 ⟨1, 1, 0, fun _ => 0, none⟩
    (Or.inr (by norm_num))).2

/-! ## Claim C6 -/

/-- Claim C6, counterexample to the claim as stated: `resize` only
skips reallocation when the new size is *strictly* below `allocSize`
(`if (numEvents_ < allocSize) return;`).  For `n = allocSize = 1` — a
value "not exceeding the current capacity" — the allocator is called
again (`allocCount` increments) and the storage is replaced by a fresh
block: the old cell contents are gone. -/
theorem C6_counterexample :
    (1 : Nat) ≤ (1 : Nat) ∧
    (resize (fun _ => 0) 1 ⟨1, 1, 1, fun _ => 5, none⟩).allocCount = 2 ∧
    (resize (fun _ => 0) 1 ⟨1, 1, 1, fun _ => 5, none⟩).events 0 = 0 ∧
    (⟨1, 1, 1, fun _ => 5, none⟩ : Buffer).allocCount = 1 ∧
    (⟨1, 1, 1, fun _ => 5, none⟩ : Buffer).events 0 = 5 := by decide

/-- Claim C6, amended: for every `n` *strictly below* the current
capacity `allocSize`, `resize n` performs no reallocation: the
capacity, allocation count and storage block are unchanged and only
the logical size `numEvents` is updated.  (At `n = allocSize` the code
reallocates; see the counterexample.) -/
theorem C6_resize_amended (junk : Nat → ℚ) (n : Nat) (st : Buffer)
    (h : n < st.allocSize) :
    resize junk n st = { st with numEvents := n } := by
  unfold resize; rw [if_pos h]

/-- Claim C6, witness: a shrink from logical size 2 to 1 below
capacity 3 keeps capacity, allocation count and cell contents. -/
theorem C6_witness :
    (1 : Nat) < (3 : Nat) ∧
    resize (fun _ => 0) 1 ⟨2, 3, 4, fun _ => 9, none⟩ =
      ⟨1, 3, 4, fun _ => 9, none⟩ := by
  exact ⟨by norm_num,
    C6_resize_amended (fun _ => 0) 1 ⟨2, 3, 4, fun _ => 9, none⟩ (by norm_num)⟩

/-! ### The binary event loop -/

theorem applyRows_zero (X Y Z R V : Nat → ℚ) (st : Buffer) :
    applyRows X Y Z R V 0 st = st := rfl

theorem applyRows_succ (X Y Z R V : Nat → ℚ) (n : Nat) (st : Buffer) :
    applyRows X Y Z R V (n + 1) st =
      update n ⟨X n, Y n, Z n⟩ (R n) (V n) (applyRows X Y Z R V n st) := by
  unfold applyRows
  rw [List.range_succ, List.foldl_append, List.foldl_cons, List.foldl_nil]

theorem applyRows_numEvents (X Y Z R V : Nat → ℚ) (n : Nat) (st : Buffer) :
    (applyRows X Y Z R V n st).numEvents = st.numEvents := by
  induction n generalizing st with
  | zero => rfl
  | succ n ih => rw [applyRows_succ, update_numEvents, ih]

/-- Full characterization of the event cells after the binary reading
loop `for i < n: update(i, row i)` on a buffer of logical size `N`:
cells outside the first `n` events' slots are untouched; the position
and value cells of event `i < n` hold the row's fields; the radius
cell holds the reciprocal when the row's radius clears `ε` and is
otherwise untouched. -/
theorem applyRows_events (X Y Z R V : Nat → ℚ) (N : Nat) :
    ∀ n, n ≤ N → ∀ st : Buffer, st.numEvents = N →
      ((∀ k : Nat, (∀ i j : Nat, i < n → j < 5 → k ≠ i + N * j) →
          (applyRows X Y Z R V n st).events k = st.events k) ∧
       (∀ i : Nat, i < n →
          (applyRows X Y Z R V n st).events (i + N * 0) = X i ∧
          (applyRows X Y Z R V n st).events (i + N * 1) = Y i ∧
          (applyRows X Y Z R V n st).events (i + N * 2) = Z i ∧
          (applyRows X Y Z R V n st).events (i + N * 4) = V i ∧
          (applyRows X Y Z R V n st).events (i + N * 3) =
            (if eps < absQ (R i) then 1 / R i
             else st.events (i + N * 3)))) := by
  intro n
  induction n with
  | zero =>
    intro _ st _
    exact ⟨fun k _ => rfl, fun i hi => absurd hi (by omega)⟩
  | succ n ih =>
    intro hn1 st hst
    have hnN : n < N := by omega
    obtain ⟨ihU, ihS⟩ := ih (by omega) st hst
    have hnum : (applyRows X Y Z R V n st).numEvents = N := by
      rw [applyRows_numEvents]; exact hst
    have hlt : n < (applyRows X Y Z R V n st).numEvents := by
      rw [hnum]; exact hnN
    have hstep : ∀ k : Nat, (applyRows X Y Z R V (n + 1) st).events k =
        (if k = n + N * 4 then V n
         else if k = n + N * 3 ∧ eps < absQ (R n) then 1 / R n
         else if k = n + N * 2 then Z n
         else if k = n + N * 1 then Y n
         else if k = n + N * 0 then X n
         else (applyRows X Y Z R V n st).events k) := by
      intro k
      rw [applyRows_succ, update_events_spec _ _ _ _ _ hlt, hnum]
    constructor
    · intro k hk
      rw [hstep k,
        if_neg (hk n 4 (by omega) (by omega)),
        if_neg (fun hc => (hk n 3 (by omega) (by omega)) hc.1),
        if_neg (hk n 2 (by omega) (by omega)),
        if_neg (hk n 1 (by omega) (by omega)),
        if_neg (hk n 0 (by omega) (by omega))]
      exact ihU k (fun i j hi hj => hk i j (by omega) hj)
    · intro i hi
      by_cases hin : i = n
      · subst hin
        refine ⟨?_, ?_, ?_, ?_, ?_⟩
        · rw [hstep, if_neg (by omega),
            if_neg (fun hc => absurd hc.1 (by omega)),
            if_neg (by omega), if_neg (by omega), if_pos rfl]
        · rw [hstep, if_neg (by omega),
            if_neg (fun hc => absurd hc.1 (by omega)),
            if_neg (by omega), if_pos rfl]
        · rw [hstep, if_neg (by omega),
            if_neg (fun hc => absurd hc.1 (by omega)), if_pos rfl]
        · rw [hstep, if_pos rfl]
        · rw [hstep, if_neg (by omega)]
          by_cases hr : eps < absQ (R i)
          · rw [if_pos ⟨rfl, hr⟩, if_pos hr]
          · rw [if_neg (fun hc => hr hc.2), if_neg hr, if_neg (by omega),
              if_neg (by omega), if_neg (by omega)]
            exact ihU (i + N * 3)
              (fun i' j hi' hj =>
                (cellNe N i i' 3 j hnN (by omega) (Or.inl (by omega))))
      · have hiln : i < n := by omega
        have hiN : i < N := by omega
        have hco : ∀ j j' : Nat, i + N * j ≠ n + N * j' := fun j j' =>
          cellNe N i n j j' hiN hnN (Or.inl (by omega))
        obtain ⟨s0, s1, s2, s4, s3⟩ := ihS i hiln
        refine ⟨?_, ?_, ?_, ?_, ?_⟩
        · rw [hstep, if_neg (hco 0 4),
            if_neg (fun hc => absurd hc.1 (hco 0 3)), if_neg (hco 0 2),
            if_neg (hco 0 1), if_neg (hco 0 0)]
          exact s0
        · rw [hstep, if_neg (hco 1 4),
            if_neg (fun hc => absurd hc.1 (hco 1 3)), if_neg (hco 1 2),
            if_neg (hco 1 1), if_neg (hco 1 0)]
          exact s1
        · rw [hstep, if_neg (hco 2 4),
            if_neg (fun hc => absurd hc.1 (hco 2 3)), if_neg (hco 2 2),
            if_neg (hco 2 1), if_neg (hco 2 0)]
          exact s2
        · rw [hstep, if_neg (hco 4 4),
            if_neg (fun hc => absurd hc.1 (hco 4 3)), if_neg (hco 4 2),
            if_neg (hco 4 1), if_neg (hco 4 0)]
          exact s4
        · rw [hstep, if_neg (hco 3 4),
            if_neg (fun hc => absurd hc.1 (hco 3 3)), if_neg (hco 3 2),
            if_neg (hco 3 1), if_neg (hco 3 0)]
          exact s3

/-- The float words of a written binary file are the buffer's cells
under the layout in force at write time. -/
theorem write_floats (st : Buffer) (i j : Nat) (hi : i < st.numEvents)
    (hj : j < 5) :
    (writeBinary st).floats (2 + 5 * i + j) =
      st.events (i + st.numEvents * j) := by
  show (if 2 ≤ 2 + 5 * i + j ∧ 2 + 5 * i + j < 2 + 5 * st.numEvents then
      st.events ((2 + 5 * i + j - 2) / 5 +
        st.numEvents * ((2 + 5 * i + j - 2) % 5))
    else 0) = st.events (i + st.numEvents * j)
  rw [if_pos ⟨by omega, by omega⟩]
  have e1 : 2 + 5 * i + j - 2 = 5 * i + j := by omega
  rw [e1]
  have e2 : (5 * i + j) / 5 = i := by omega
  have e3 : (5 * i + j) % 5 = j := by omega
  rw [e2, e3]

/-- `readBinary` on a file just written from `st` succeeds: the size
checks pass exactly, the event count computed from the size is
`st.numEvents`, and the loop replays every written row through
`update` after a `resize` to the same logical size. -/
theorem readBinary_write (junk : Nat → ℚ) (st : Buffer) :
    readBinary junk (writeBinary st) st =
      (true,
       applyRows (fun i => (writeBinary st).floats (2 + 5 * i))
                 (fun i => (writeBinary st).floats (2 + 5 * i + 1))
                 (fun i => (writeBinary st).floats (2 + 5 * i + 2))
                 (fun i => (writeBinary st).floats (2 + 5 * i + 3))
                 (fun i => (writeBinary st).floats (2 + 5 * i + 4))
                 st.numEvents (resize junk st.numEvents st)) := by
  have hsize : (writeBinary st).size = st.numEvents * 5 * 4 + 8 := rfl
  have hmagic : (writeBinary st).magicWord = magic := rfl
  have hversion : (writeBinary st).versionWord = version := rfl
  simp only [readBinary, hsize, hmagic, hversion]
  have h4 : (st.numEvents * 5 * 4 + 8) / 4 = 5 * st.numEvents + 2 := by omega
  rw [h4, if_neg (by omega), if_neg (by simp), if_neg (by simp)]
  have h5 : (5 * st.numEvents + 2 - 2) / 5 = st.numEvents := by omega
  rw [h5, if_neg (by simp [binarySize])]

/-- `read` on a file just written from `st` takes the binary path. -/
theorem read_writeBinary (junk : Nat → ℚ) (st : Buffer) (txt : List Line) :
    read junk ⟨writeBinary st, txt⟩ st =
      (true,
       applyRows (fun i => (writeBinary st).floats (2 + 5 * i))
                 (fun i => (writeBinary st).floats (2 + 5 * i + 1))
                 (fun i => (writeBinary st).floats (2 + 5 * i + 2))
                 (fun i => (writeBinary st).floats (2 + 5 * i + 3))
                 (fun i => (writeBinary st).floats (2 + 5 * i + 4))
                 st.numEvents (resize junk st.numEvents st)) := by
  simp only [read]
  rw [readBinary_write]

/-! ### Bounding-box algebra -/

@[simp] theorem boxLE_none (b : AABB) : boxLE none b = True := rfl

@[simp] theorem boxLE_some_none (lo hi : Vec3) :
    boxLE (some (lo, hi)) none = False := rfl

@[simp] theorem boxLE_some_some (lo hi lo' hi' : Vec3) :
    boxLE (some (lo, hi)) (some (lo', hi')) =
      (lo'.x ≤ lo.x ∧ lo'.y ≤ lo.y ∧ lo'.z ≤ lo.z ∧
       hi.x ≤ hi'.x ∧ hi.y ≤ hi'.y ∧ hi.z ≤ hi'.z) := rfl

@[simp] theorem boxContains_none (p : Vec3) : boxContains none p = False := rfl

@[simp] theorem boxContains_some (lo hi p : Vec3) :
    boxContains (some (lo, hi)) p =
      (lo.x ≤ p.x ∧ p.x ≤ hi.x ∧ lo.y ≤ p.y ∧ p.y ≤ hi.y ∧
       lo.z ≤ p.z ∧ p.z ≤ hi.z) := rfl

@[simp] theorem mergeBox_none (p : Vec3) : mergeBox none p = some (p, p) := rfl

@[simp] theorem mergeBox_some (lo hi p : Vec3) :
    mergeBox (some (lo, hi)) p =
      some (⟨min lo.x p.x, min lo.y p.y, min lo.z p.z⟩,
            ⟨max hi.x p.x, max hi.y p.y, max hi.z p.z⟩) := rfl

theorem boxLE_refl (b : AABB) : boxLE b b := by
  rcases b with _ | ⟨lo, hi⟩ <;> simp

theorem boxLE_trans (a b c : AABB) (h1 : boxLE a b) (h2 : boxLE b c) :
    boxLE a c := by
  rcases a with _ | ⟨alo, ahi⟩
  · simp
  · rcases b with _ | ⟨blo, bhi⟩
    · simp at h1
    · rcases c with _ | ⟨clo, chi⟩
      · simp at h2
      · simp only [boxLE_some_some] at h1 h2 ⊢
        obtain ⟨x1, y1, z1, x2, y2, z2⟩ := h1
        obtain ⟨x3, y3, z3, x4, y4, z4⟩ := h2
        exact ⟨le_trans x3 x1, le_trans y3 y1, le_trans z3 z1,
               le_trans x2 x4, le_trans y2 y4, le_trans z2 z4⟩

theorem boxLE_mergeBox (b : AABB) (p : Vec3) : boxLE b (mergeBox b p) := by
  rcases b with _ | ⟨lo, hi⟩
  · simp
  · simp only [mergeBox_some, boxLE_some_some]
    exact ⟨min_le_left _ _, min_le_left _ _, min_le_left _ _,
           le_max_left _ _, le_max_left _ _, le_max_left _ _⟩

theorem boxContains_mergeBox_self (b : AABB) (p : Vec3) :
    boxContains (mergeBox b p) p := by
  rcases b with _ | ⟨lo, hi⟩
  · simp
  · simp only [mergeBox_some, boxContains_some]
    exact ⟨min_le_right _ _, le_max_right _ _, min_le_right _ _,
           le_max_right _ _, min_le_right _ _, le_max_right _ _⟩

theorem boxContains_mono (a b : AABB) (p : Vec3) (h : boxLE a b)
    (hc : boxContains a p) : boxContains b p := by
  rcases a with _ | ⟨lo, hi⟩
  · simp at hc
  · rcases b with _ | ⟨lo', hi'⟩
    · simp at h
    · simp only [boxLE_some_some] at h
      simp only [boxContains_some] at hc ⊢
      obtain ⟨x1, y1, z1, x2, y2, z2⟩ := h
      obtain ⟨cx1, cx2, cy1, cy2, cz1, cz2⟩ := hc
      exact ⟨le_trans x1 cx1, le_trans cx2 x2, le_trans y1 cy1,
             le_trans cy2 y2, le_trans z1 cz1, le_trans cz2 z2⟩

theorem mergeBox_boxLE (b B : AABB) (p : Vec3) (h1 : boxLE b B)
    (h2 : boxContains B p) : boxLE (mergeBox b p) B := by
  rcases B with _ | ⟨lo', hi'⟩
  · simp at h2
  · simp only [boxContains_some] at h2
    obtain ⟨cx1, cx2, cy1, cy2, cz1, cz2⟩ := h2
    rcases b with _ | ⟨lo, hi⟩
    · simp only [mergeBox_none, boxLE_some_some]
      exact ⟨cx1, cy1, cz1, cx2, cy2, cz2⟩
    · simp only [boxLE_some_some] at h1
      obtain ⟨x1, y1, z1, x2, y2, z2⟩ := h1
      simp only [mergeBox_some, boxLE_some_some]
      exact ⟨le_min x1 cx1, le_min y1 cy1, le_min z1 cz1,
             max_le x2 cx2, max_le y2 cy2, max_le z2 cz2⟩

/-! ### Sequences of update calls -/

/-- One call to `EventSource::update`, as data. -/
structure UpdateCall where
  idx : Nat
  pos : Vec3
  rad : ℚ
  val : ℚ

/-- Apply one `update` call to a buffer. -/
def applyCall (st : Buffer) (c : UpdateCall) : Buffer :=
  update c.idx c.pos c.rad c.val st

/-- Apply a sequence of `update` calls, left to right. -/
def applyCalls (st : Buffer) (cs : List UpdateCall) : Buffer :=
  cs.foldl applyCall st

@[simp] theorem applyCalls_nil (st : Buffer) : applyCalls st [] = st := rfl

@[simp] theorem applyCalls_cons (st : Buffer) (c : UpdateCall)
    (cs : List UpdateCall) :
    applyCalls st (c :: cs) = applyCalls (applyCall st c) cs := rfl

theorem applyCall_numEvents (st : Buffer) (c : UpdateCall) :
    (applyCall st c).numEvents = st.numEvents :=
  update_numEvents c.idx c.pos c.rad c.val st

theorem applyCall_bbox (st : Buffer) (c : UpdateCall) :
    (applyCall st c).bbox =
      if st.numEvents ≤ c.idx then st.bbox else mergeBox st.bbox c.pos :=
  update_bbox c.idx c.pos c.rad c.val st

theorem applyCalls_bbox_mono (cs : List UpdateCall) :
    ∀ st : Buffer, boxLE st.bbox (applyCalls st cs).bbox := by
  induction cs with
  | nil => intro st; exact boxLE_refl _
  | cons c cs ih =>
    intro st
    rw [applyCalls_cons]
    refine boxLE_trans _ _ _ ?_ (ih (applyCall st c))
    rw [applyCall_bbox]
    split_ifs
    · exact boxLE_refl _
    · exact boxLE_mergeBox _ _

theorem applyCalls_bbox_contains (cs : List UpdateCall) :
    ∀ st : Buffer, ∀ c ∈ cs, c.idx < st.numEvents →
      boxContains (applyCalls st cs).bbox c.pos := by
  induction cs with
  | nil => intro st c hc; exact absurd hc (List.not_mem_nil c)
  | cons c0 cs ih =>
    intro st c hc hlt
    rw [applyCalls_cons]
    rcases List.mem_cons.mp hc with rfl | hmem
    · refine boxContains_mono _ _ _ (applyCalls_bbox_mono cs (applyCall st c))
        ?_
      rw [applyCall_bbox, if_neg (not_le.mpr hlt)]
      exact boxContains_mergeBox_self _ _
    · exact ih (applyCall st c0) c hmem
        (by rw [applyCall_numEvents]; exact hlt)

theorem applyCalls_bbox_minimal (cs : List UpdateCall) :
    ∀ (st : Buffer) (B : AABB), boxLE st.bbox B →
      (∀ c ∈ cs, c.idx < st.numEvents → boxContains B c.pos) →
      boxLE (applyCalls st cs).bbox B := by
  induction cs with
  | nil => intro st B h _; exact h
  | cons c0 cs ih =>
    intro st B hB hall
    rw [applyCalls_cons]
    refine ih (applyCall st c0) B ?_ ?_
    · rw [applyCall_bbox]
      split_ifs with h
      · exact hB
      · exact mergeBox_boxLE _ _ _ hB
          (hall c0 (List.mem_cons_self c0 cs) (not_le.mp h))
    · intro c hmem hlt
      exact hall c (List.mem_cons_of_mem c0 hmem)
        (by rw [applyCall_numEvents] at hlt; exact hlt)

/-! ## Claim C7 -/

/-- Claim C7, counterexample to the claim as stated: an out-of-bounds
`update` call returns before the bounding-box merge, so the box does
*not* contain every position ever passed to `update`: updating event 0
of an empty buffer leaves the box empty, which does not contain the
passed position `(1,2,3)`. -/
theorem C7_counterexample :
    (update 0 ⟨1, 2, 3⟩ 1 1 ⟨0, 0, 0, fun _ => 0, none⟩).bbox = none ∧
    ¬ boxContains (update 0 ⟨1, 2, 3⟩ 1 1 ⟨0, 0, 0, fun _ => 0, none⟩).bbox
        ⟨1, 2, 3⟩ := by
  have h : (update 0 ⟨1, 2, 3⟩ 1 1 ⟨0, 0, 0, fun _ => 0, none⟩).bbox = none := by
    rw [update_bbox, if_pos (by decide)]
  refine ⟨h, ?_⟩
  rw [h]
  simp

/-- Claim C7, amended: across any sequence of `update` calls, the
bounding box only grows (the prior box is always included in the new
one), it contains the position of every *in-bounds* call of the
sequence (an out-of-bounds call is dropped before the merge, see the
counterexample), and it is minimal with that property: it is included
in every box that contains the starting box and all in-bounds
positions. -/
theorem C7_bbox_amended (st : Buffer) (cs : List UpdateCall) :
    boxLE st.bbox (applyCalls st cs).bbox ∧
    (∀ c ∈ cs, c.idx < st.numEvents →
      boxContains (applyCalls st cs).bbox c.pos) ∧
    (∀ B : AABB, boxLE st.bbox B →
      (∀ c ∈ cs, c.idx < st.numEvents → boxContains B c.pos) →
      boxLE (applyCalls st cs).bbox B) :=
  ⟨applyCalls_bbox_mono cs st, applyCalls_bbox_contains cs st,
   fun B hB hall => applyCalls_bbox_minimal cs st B hB hall⟩

/-- Claim C7, witness: after one in-bounds update on a one-event
buffer, the bounding box contains the updated position. -/
theorem C7_witness :
    boxContains
      (applyCalls ⟨1, 1, 0, fun _ => 0, none⟩
        [⟨0, ⟨1, 2, 3⟩, 1, 1⟩]).bbox ⟨1, 2, 3⟩ :=
  (C7_bbox_amended ⟨1, 1, 0, fun _ => 0, none⟩ [⟨0, ⟨1, 2, 3⟩, 1, 1⟩]).2.1
    ⟨0, ⟨1, 2, 3⟩, 1, 1⟩ (List.mem_singleton.mpr rfl) (by decide)

/-! ## Claim C3 -/

/-- Any failing `readBinary` returns the buffer unchanged: every
failure branch returns `(false, st)` before the `resize` call. -/
theorem readBinary_cases (junk : Nat → ℚ) (f : BinFile) (st : Buffer) :
    readBinary junk f st = (false, st) ∨ (readBinary junk f st).1 = true := by
  simp only [readBinary]
  split_ifs <;> simp

/-- Claim C3, counterexample to the claim as stated: a text file whose
count line announces 2 events, followed by one good data line and one
malformed data line (`x x x x`, 4 tokens), makes `readAscii` return
`false` with the buffer already resized to 2 events and event 0
already overwritten — the failed read does *not* leave the buffer in
its prior (empty) state. -/
theorem C3_counterexample :
    (readAscii (fun _ => 0)
        ["Number of events: 2".toList, "1 2 3 4 5".toList, "x x x x".toList]
        ⟨0, 0, 0, fun _ => 0, none⟩).1 = false ∧
    (readAscii (fun _ => 0)
        ["Number of events: 2".toList, "1 2 3 4 5".toList, "x x x x".toList]
        ⟨0, 0, 0, fun _ => 0, none⟩).2.numEvents = 2 ∧
    getValues (readAscii (fun _ => 0)
        ["Number of events: 2".toList, "1 2 3 4 5".toList, "x x x x".toList]
        ⟨0, 0, 0, fun _ => 0, none⟩).2 0 = 5 ∧
    (⟨0, 0, 0, fun _ => 0, none⟩ : Buffer).numEvents = 0 ∧ (2 : Nat) ≠ 0 := by
  rw [readAscii,
    readAsciiLines_count _ _ _ _ _ (by decide) (by decide),
    show sizeTOfInt (atoi (countArg "Number of events: 2".toList)) = 2 by decide,
    readAsciiLines_dataLine _ _ _ _ _ (by decide) (by decide)
      (by rw [resize_numEvents]; norm_num)
      (by rw [List.length_map]; decide),
    readAsciiLines_badLine _ _ _ _ _ (by decide) (by decide)
      (by rw [update_numEvents, resize_numEvents]; norm_num)
      (by rw [List.length_map]; decide)]
  refine ⟨rfl, by rw [update_numEvents, resize_numEvents], ?_, rfl, by norm_num⟩
  have hsplit : splitTokens "1 2 3 4 5".toList =
      [['1'], ['2'], ['3'], ['4'], ['5']] := by decide
  rw [hsplit]
  simp only [List.map_cons, List.map_nil, List.getD_cons_zero,
    List.getD_cons_succ]
  rw [getValues, update_numEvents, resize_numEvents,
    update_events_spec _ _ _ _ _ (by rw [resize_numEvents]; norm_num),
    resize_numEvents, if_pos rfl]
  rw [atof, show atofParse ['5'] = ⟨false, ['5'], [], 0⟩ by decide]
  norm_num [atofVal, show digitsToNat ['5'] = 5 by decide,
    show digitsToNat ([] : Line) = 0 by decide]

/-- Claim C3, amended: binary-format failures (wrong magic, bad
version, size mismatch) indeed return `false` with the buffer in its
prior state, and in both formats the buffer is resized only after the
header/count parsing has succeeded; but a failed *text* read is not
atomic: when a data line after a successful count line is malformed,
`readAscii` returns `false` with the buffer already resized and
partially overwritten (see the counterexample, whose failing state
this theorem exhibits). -/
theorem C3_failedRead_amended :
    (∀ (junk : Nat → ℚ) (f : BinFile) (st : Buffer),
      (readBinary junk f st).1 = false → (readBinary junk f st).2 = st) ∧
    ((readAscii (fun _ => 0)
        ["Number of events: 2".toList, "1 2 3 4 5".toList, "x x x x".toList]
        ⟨0, 0, 0, fun _ => 0, none⟩).1 = false ∧
     (readAscii (fun _ => 0)
        ["Number of events: 2".toList, "1 2 3 4 5".toList, "x x x x".toList]
        ⟨0, 0, 0, fun _ => 0, none⟩).2.numEvents = 2) := by
  refine ⟨?_, ?_, ?_⟩
  · intro junk f st h
    rcases readBinary_cases junk f st with hc | hc
    · rw [hc]
    · rw [h] at hc; exact absurd hc (by norm_num)
  · rw [readAscii,
      readAsciiLines_count _ _ _ _ _ (by decide) (by decide),
      show sizeTOfInt (atoi (countArg "Number of events: 2".toList)) = 2
        by decide,
      readAsciiLines_dataLine _ _ _ _ _ (by decide) (by decide)
        (by rw [resize_numEvents]; norm_num)
        (by rw [List.length_map]; decide),
      readAsciiLines_badLine _ _ _ _ _ (by decide) (by decide)
        (by rw [update_numEvents, resize_numEvents]; norm_num)
        (by rw [List.length_map]; decide)]
  · rw [readAscii,
      readAsciiLines_count _ _ _ _ _ (by decide) (by decide),
      show sizeTOfInt (atoi (countArg "Number of events: 2".toList)) = 2
        by decide,
      readAsciiLines_dataLine _ _ _ _ _ (by decide) (by decide)
        (by rw [resize_numEvents]; norm_num)
        (by rw [List.length_map]; decide),
      readAsciiLines_badLine _ _ _ _ _ (by decide) (by decide)
        (by rw [update_numEvents, resize_numEvents]; norm_num)
        (by rw [List.length_map]; decide)]
    rw [update_numEvents, resize_numEvents]

/-- Claim C3, witness: the binary non-mutation part of the amended
theorem applied to a concrete wrong-magic file and a concrete
non-empty buffer. -/
theorem C3_witness :
    (readBinary (fun _ => 0) ⟨4, 0, 0, fun _ => 0⟩
        ⟨1, 1, 0, fun _ => 0, none⟩).1 = false ∧
    (readBinary (fun _ => 0) ⟨4, 0, 0, fun _ => 0⟩
        ⟨1, 1, 0, fun _ => 0, none⟩).2 = ⟨1, 1, 0, fun _ => 0, none⟩ := by
  have h : (readBinary (fun _ => 0) ⟨4, 0, 0, fun _ => 0⟩
      ⟨1, 1, 0, fun _ => 0, none⟩).1 = false := by decide
  exact ⟨h, C3_failedRead_amended.1 _ _ _ h⟩

/-! ## Claim C4 -/

/-- Claim C4, counterexample to the claim as stated: a 14-byte file
with correct magic word and version word `0x20312020 ≠ 1` (the bytes
`bf fe 00 00 20 20 31 20 32 20 33 20 34 0a`, i.e. the magic followed
by the text `"  1 2 3 4\n"`).  `readBinary` fails on the bad version,
but `read` then *does* try the text format on the same file: its
single text line tokenizes into 5 tokens (`"\xbf\xfe\0\0"`, `1`, `2`,
`3`, `4`), so the ASCII parser overwrites event 0 of the non-empty
buffer — refuting "no fallback to the text format". -/
theorem C4_counterexample :
    (read (fun _ => 0)
        ⟨⟨14, 0xfebf, 0x20312020, fun _ => 0⟩,
         [[Char.ofNat 0xbf, Char.ofNat 0xfe, Char.ofNat 0, Char.ofNat 0,
           ' ', ' ', '1', ' ', '2', ' ', '3', ' ', '4']]⟩
        ⟨1, 1, 0, fun _ => 0, none⟩).1 = false ∧
    getValues (read (fun _ => 0)
        ⟨⟨14, 0xfebf, 0x20312020, fun _ => 0⟩,
         [[Char.ofNat 0xbf, Char.ofNat 0xfe, Char.ofNat 0, Char.ofNat 0,
           ' ', ' ', '1', ' ', '2', ' ', '3', ' ', '4']]⟩
        ⟨1, 1, 0, fun _ => 0, none⟩).2 0 = 4 ∧
    getValues (⟨1, 1, 0, fun _ => 0, none⟩ : Buffer) 0 = 0 ∧
    (4 : ℚ) ≠ 0 := by
  have hb : readBinary (fun _ => 0) ⟨14, 0xfebf, 0x20312020, fun _ => 0⟩
      ⟨1, 1, 0, fun _ => 0, none⟩ = (false, ⟨1, 1, 0, fun _ => 0, none⟩) := rfl
  simp only [read, hb]
  rw [readAscii,
    readAsciiLines_dataLine _ _ _ _ _ (by decide) (by decide) (by norm_num)
      (by rw [List.length_map]; decide),
    readAsciiLines_nil]
  refine ⟨rfl, ?_, rfl, by norm_num⟩
  have hsplit : splitTokens
      [Char.ofNat 0xbf, Char.ofNat 0xfe, Char.ofNat 0, Char.ofNat 0,
       ' ', ' ', '1', ' ', '2', ' ', '3', ' ', '4'] =
      [[Char.ofNat 0xbf, Char.ofNat 0xfe, Char.ofNat 0, Char.ofNat 0],
       ['1'], ['2'], ['3'], ['4']] := by decide
  rw [hsplit]
  simp only [List.map_cons, List.map_nil, List.getD_cons_zero,
    List.getD_cons_succ]
  rw [getValues, update_numEvents,
    update_events_spec _ _ _ _ _ (by norm_num), if_pos rfl]
  rw [atof, show atofParse ['4'] = ⟨false, ['4'], [], 0⟩ by decide]
  norm_num [atofVal, show digitsToNat ['4'] = 4 by decide,
    show digitsToNat ([] : Line) = 0 by decide]

/-- Claim C4, amended: a binary file with correct magic but a version
word different from 1 makes `readBinary` fail without mutating the
buffer, and `read` then *unconditionally falls back to attempting the
text format* on the same file — exactly as it does for a wrong magic
number; the overall result of `read` is the text attempt's result. -/
theorem C4_badVersion_amended (junk : Nat → ℚ) (f : DiskFile) (st : Buffer)
    (hm : f.bin.magicWord = magic) (hv : f.bin.versionWord ≠ version)
    (hs : 2 ≤ f.bin.size / 4) :
    readBinary junk f.bin st = (false, st) ∧
    read junk f st = readAscii junk f.text st := by
  have h1 : readBinary junk f.bin st = (false, st) := by
    simp only [readBinary]
    rw [if_neg (by omega), if_neg (by simp [hm]), if_pos (Or.inr hv)]
  refine ⟨h1, ?_⟩
  simp only [read, h1]

/-- Claim C4, witness: the amended theorem applied to the concrete
bad-version file of the counterexample. -/
theorem C4_witness :
    (⟨14, 0xfebf, 0x20312020, fun _ => (0 : ℚ)⟩ : BinFile).magicWord = magic ∧
    (⟨14, 0xfebf, 0x20312020, fun _ => (0 : ℚ)⟩ : BinFile).versionWord ≠
      version ∧
    read (fun _ => 0)
        ⟨⟨14, 0xfebf, 0x20312020, fun _ => 0⟩, ["x".toList]⟩
        ⟨1, 1, 0, fun _ => 0, none⟩ =
      readAscii (fun _ => 0) ["x".toList] ⟨1, 1, 0, fun _ => 0, none⟩ := by
  refine ⟨by decide, by decide, ?_⟩
  exact (C4_badVersion_amended (fun _ => 0)
    ⟨⟨14, 0xfebf, 0x20312020, fun _ => 0⟩, ["x".toList]⟩
    ⟨1, 1, 0, fun _ => 0, none⟩ (by decide) (by decide) (by decide)).2

/-! ## Claim C8 -/

/-- Claim C8, counterexample to the claim as stated: inserting an
*empty* line into a well-formed text file changes the result.  Without
it the data line is parsed and the value `5` is stored; with the empty
line inserted before the data line, the read aborts at the empty line
(zero tokens ≠ 5) and the value cell still holds the freshly allocated
block's contents `0`.  Empty lines are not skipped: `getline` strips
the delimiter, so `line[0] == '\n'` never holds, and on an empty line
`line[0]` is the null character, not `#`. -/
theorem C8_counterexample :
    getValues (readAscii (fun _ => 0)
        ["Number of events: 1".toList, "1 2 3 4 5".toList]
        ⟨0, 0, 0, fun _ => 0, none⟩).2 0 = 5 ∧
    getValues (readAscii (fun _ => 0)
        ["Number of events: 1".toList, [], "1 2 3 4 5".toList]
        ⟨0, 0, 0, fun _ => 0, none⟩).2 0 = 0 ∧
    (readAscii (fun _ => 0)
        ["Number of events: 1".toList, [], "1 2 3 4 5".toList]
        ⟨0, 0, 0, fun _ => 0, none⟩).1 = false ∧
    (5 : ℚ) ≠ 0 := by
  refine ⟨?_, ?_, ?_, by norm_num⟩
  · rw [readAscii,
      readAsciiLines_count _ _ _ _ _ (by decide) (by decide),
      show sizeTOfInt (atoi (countArg "Number of events: 1".toList)) = 1
        by decide,
      readAsciiLines_dataLine _ _ _ _ _ (by decide) (by decide)
        (by rw [resize_numEvents]; norm_num)
        (by rw [List.length_map]; decide),
      readAsciiLines_nil]
    have hsplit : splitTokens "1 2 3 4 5".toList =
        [['1'], ['2'], ['3'], ['4'], ['5']] := by decide
    rw [hsplit]
    simp only [List.map_cons, List.map_nil, List.getD_cons_zero,
      List.getD_cons_succ]
    rw [getValues, update_numEvents, resize_numEvents,
      update_events_spec _ _ _ _ _ (by rw [resize_numEvents]; norm_num),
      resize_numEvents, if_pos rfl]
    rw [atof, show atofParse ['5'] = ⟨false, ['5'], [], 0⟩ by decide]
    norm_num [atofVal, show digitsToNat ['5'] = 5 by decide,
      show digitsToNat ([] : Line) = 0 by decide]
  · rw [readAscii,
      readAsciiLines_count _ _ _ _ _ (by decide) (by decide),
      show sizeTOfInt (atoi (countArg "Number of events: 1".toList)) = 1
        by decide,
      readAsciiLines_badLine _ _ _ _ _ (by decide) (by decide)
        (by rw [resize_numEvents]; norm_num) (by rw [List.length_map]; decide)]
    rw [getValues, resize_numEvents]
    norm_num [resize]
  · rw [readAscii,
      readAsciiLines_count _ _ _ _ _ (by decide) (by decide),
      show sizeTOfInt (atoi (countArg "Number of events: 1".toList)) = 1
        by decide,
      readAsciiLines_badLine _ _ _ _ _ (by decide) (by decide)
        (by rw [resize_numEvents]; norm_num) (by rw [List.length_map]; decide)]

/-- Claim C8, amended: every line whose first character is `#` is
skipped with no effect on the parse; *empty* lines, however, are not
skipped — an empty line always aborts the read with `false` and stops
processing (it yields zero tokens, and zero ≠ 5; when the buffer is
still empty it hits the no-events failure instead), leaving the buffer
as the loop had it at that point. -/
theorem C8_commentLines_amended (junk : Nat → ℚ) :
    (∀ (line : Line) (rest : List Line) (index : Nat) (st : Buffer),
      cppChar0 line = '#' →
        readAsciiLines junk (line :: rest) index st =
          readAsciiLines junk rest index st) ∧
    (∀ (rest : List Line) (index : Nat) (st : Buffer),
      readAsciiLines junk (([] : Line) :: rest) index st = (false, st)) := by
  constructor
  · intro line rest index st h
    exact readAsciiLines_skip junk line rest index st (Or.inl h)
  · intro rest index st
    by_cases h3 : st.numEvents = 0
    · exact readAsciiLines_noEvents junk [] rest index st (by decide)
        (by decide) h3
    · exact readAsciiLines_badLine junk [] rest index st (by decide)
        (by decide) h3 (by decide)

/-- Claim C8, witness: the comment-skip part of the amended theorem at
a concrete comment line, and the empty-line part at a concrete
buffer. -/
theorem C8_witness :
    cppChar0 "# a comment".toList = '#' ∧
    readAsciiLines (fun _ => 0) ["# a comment".toList, "1 2 3 4 5".toList] 0
        ⟨1, 1, 0, fun _ => 0, none⟩ =
      readAsciiLines (fun _ => 0) ["1 2 3 4 5".toList] 0
        ⟨1, 1, 0, fun _ => 0, none⟩ ∧
    readAsciiLines (fun _ => 0) [([] : Line)] 3 ⟨1, 1, 0, fun _ => 0, none⟩ =
      (false, ⟨1, 1, 0, fun _ => 0, none⟩) := by
  refine ⟨by decide, ?_, ?_⟩
  · exact (C8_commentLines_amended (fun _ => 0)).1 "# a comment".toList
      ["1 2 3 4 5".toList] 0 ⟨1, 1, 0, fun _ => 0, none⟩ (by decide)
  · exact (C8_commentLines_amended (fun _ => 0)).2 [] 3
      ⟨1, 1, 0, fun _ => 0, none⟩

/-! ## Claim C10 -/

/-- Claim C10: the column accessors base each column at
`numEvents * offset`, so after writing two events and then shrinking
to one event with a capacity-preserving `resize(1)`, the position-y
accessor at ordinal 0 returns `11` — the position-*x* of event 1 under
the old layout — and no longer the `20` that `update` stored as the
position-y of event 0. -/
theorem C10_shrunk_columns_misaligned :
    getPositionsY
        (update 1 ⟨11, 21, 31⟩ 1 101
          (update 0 ⟨10, 20, 30⟩ 1 100
            (resize (fun _ => 0) 2 ⟨0, 0, 0, fun _ => 0, none⟩))) 0 = 20 ∧
    getPositionsY
        (resize (fun _ => 0) 1
          (update 1 ⟨11, 21, 31⟩ 1 101
            (update 0 ⟨10, 20, 30⟩ 1 100
              (resize (fun _ => 0) 2 ⟨0, 0, 0, fun _ => 0, none⟩)))) 0 = 11 ∧
    (11 : ℚ) ≠ 20 := by
  norm_num [getPositionsY, resize, update, eps, absQ]

/-! ## Claim C1 -/

theorem getRadii_def (st : Buffer) (i : Nat) :
    getRadii st i = st.events (i + st.numEvents * 3) := rfl

/-- Claim C1, counterexample to the claim as stated: a one-event
buffer whose stored radius is `0` (`|0| ≤ ε`), at full capacity
(`allocSize = numEvents = 1`, the state any fresh `resize(1)` leaves).
Writing it to the binary format and reading the file back makes
`readBinary` call `resize(1)`, which *reallocates* (the capacity test
is strict), and then `update` skips the radius store because
`|0| ≤ ε` — so the read-back radius is the fresh block's indeterminate
content (the allocation oracle's `99`), not the original `0`. -/
theorem C1_counterexample :
    getRadii (⟨1, 1, 1, fun k => if k = 0 then 1 else if k = 1 then 2
        else if k = 2 then 3 else if k = 3 then 0 else 7, none⟩ : Buffer) 0
      = 0 ∧
    ¬ eps < absQ 0 ∧
    getRadii
      (read (fun _ => 99)
        ⟨writeBinary ⟨1, 1, 1, fun k => if k = 0 then 1 else if k = 1 then 2
            else if k = 2 then 3 else if k = 3 then 0 else 7, none⟩, []⟩
        ⟨1, 1, 1, fun k => if k = 0 then 1 else if k = 1 then 2
            else if k = 2 then 3 else if k = 3 then 0 else 7, none⟩).2 0
      = 99 ∧
    (99 : ℚ) ≠ 0 := by
  refine ⟨by decide, by norm_num [eps, absQ], ?_, by norm_num⟩
  have h2 : (read (fun _ => 99)
      ⟨writeBinary ⟨1, 1, 1, fun k => if k = 0 then 1 else if k = 1 then 2
          else if k = 2 then 3 else if k = 3 then 0 else 7, none⟩, []⟩
      ⟨1, 1, 1, fun k => if k = 0 then 1 else if k = 1 then 2
          else if k = 2 then 3 else if k = 3 then 0 else 7, none⟩).2 =
      applyRows
        (fun i => (writeBinary ⟨1, 1, 1, fun k => if k = 0 then 1
            else if k = 1 then 2 else if k = 2 then 3
            else if k = 3 then 0 else 7, none⟩).floats (2 + 5 * i))
        (fun i => (writeBinary ⟨1, 1, 1, fun k => if k = 0 then 1
            else if k = 1 then 2 else if k = 2 then 3
            else if k = 3 then 0 else 7, none⟩).floats (2 + 5 * i + 1))
        (fun i => (writeBinary ⟨1, 1, 1, fun k => if k = 0 then 1
            else if k = 1 then 2 else if k = 2 then 3
            else if k = 3 then 0 else 7, none⟩).floats (2 + 5 * i + 2))
        (fun i => (writeBinary ⟨1, 1, 1, fun k => if k = 0 then 1
            else if k = 1 then 2 else if k = 2 then 3
            else if k = 3 then 0 else 7, none⟩).floats (2 + 5 * i + 3))
        (fun i => (writeBinary ⟨1, 1, 1, fun k => if k = 0 then 1
            else if k = 1 then 2 else if k = 2 then 3
            else if k = 3 then 0 else 7, none⟩).floats (2 + 5 * i + 4))
        (⟨1, 1, 1, fun k => if k = 0 then 1 else if k = 1 then 2
            else if k = 2 then 3 else if k = 3 then 0 else 7,
            none⟩ : Buffer).numEvents
        (resize (fun _ => 99)
          (⟨1, 1, 1, fun k => if k = 0 then 1 else if k = 1 then 2
              else if k = 2 then 3 else if k = 3 then 0 else 7,
              none⟩ : Buffer).numEvents
          ⟨1, 1, 1, fun k => if k = 0 then 1 else if k = 1 then 2
              else if k = 2 then 3 else if k = 3 then 0 else 7, none⟩) := by
    rw [read_writeBinary]
  rw [getRadii_def, h2, applyRows_numEvents, resize_numEvents]
  obtain ⟨hU, hS⟩ := applyRows_events
    (fun i => (writeBinary ⟨1, 1, 1, fun k => if k = 0 then 1
        else if k = 1 then 2 else if k = 2 then 3
        else if k = 3 then 0 else 7, none⟩).floats (2 + 5 * i))
    (fun i => (writeBinary ⟨1, 1, 1, fun k => if k = 0 then 1
        else if k = 1 then 2 else if k = 2 then 3
        else if k = 3 then 0 else 7, none⟩).floats (2 + 5 * i + 1))
    (fun i => (writeBinary ⟨1, 1, 1, fun k => if k = 0 then 1
        else if k = 1 then 2 else if k = 2 then 3
        else if k = 3 then 0 else 7, none⟩).floats (2 + 5 * i + 2))
    (fun i => (writeBinary ⟨1, 1, 1, fun k => if k = 0 then 1
        else if k = 1 then 2 else if k = 2 then 3
        else if k = 3 then 0 else 7, none⟩).floats (2 + 5 * i + 3))
    (fun i => (writeBinary ⟨1, 1, 1, fun k => if k = 0 then 1
        else if k = 1 then 2 else if k = 2 then 3
        else if k = 3 then 0 else 7, none⟩).floats (2 + 5 * i + 4))
    (⟨1, 1, 1, fun k => if k = 0 then 1 else if k = 1 then 2
        else if k = 2 then 3 else if k = 3 then 0 else 7,
        none⟩ : Buffer).numEvents
    (⟨1, 1, 1, fun k => if k = 0 then 1 else if k = 1 then 2
        else if k = 2 then 3 else if k = 3 then 0 else 7,
        none⟩ : Buffer).numEvents
    le_rfl
    (resize (fun _ => 99)
      (⟨1, 1, 1, fun k => if k = 0 then 1 else if k = 1 then 2
          else if k = 2 then 3 else if k = 3 then 0 else 7,
          none⟩ : Buffer).numEvents
      ⟨1, 1, 1, fun k => if k = 0 then 1 else if k = 1 then 2
          else if k = 2 then 3 else if k = 3 then 0 else 7, none⟩)
    (resize_numEvents _ _ _)
  obtain ⟨s0, s1, s2, s4, s3⟩ := hS 0 (by decide)
  have hR : (writeBinary ⟨1, 1, 1, fun k => if k = 0 then 1
      else if k = 1 then 2 else if k = 2 then 3
      else if k = 3 then 0 else 7, none⟩).floats (2 + 5 * 0 + 3) = (0 : ℚ) := by
    rw [write_floats _ 0 3 (by decide) (by omega)]
    decide
  simp only [hR] at s3
  rw [if_neg (by norm_num [eps, absQ])] at s3
  rw [s3]
  simp only [resize]
  rw [if_neg (by decide)]

/-- Claim C1, amended: reading back a binary file written from a
buffer of `N` events yields `N` events with identical positions and
values; the stored radius `s` of each event comes back as `1/s` when
`|s| > ε`, but when `|s| ≤ ε` the radius cell is simply never written
by the read-back `update`: it holds the original value only when the
read's `resize(N)` reuses the storage (`N < allocSize`), and otherwise
(reallocation, the common `N = allocSize` case) holds the fresh
block's indeterminate contents — not the original radius.  The text
writer emits the same stored fields, so its round trip inherits the
same `ε`-radius caveat on top of decimal-text rounding. -/
theorem C1_roundTrip_amended (junk : Nat → ℚ) (st : Buffer) (txt : List Line) :
    (read junk ⟨writeBinary st, txt⟩ st).1 = true ∧
    (read junk ⟨writeBinary st, txt⟩ st).2.numEvents = st.numEvents ∧
    (∀ i, i < st.numEvents →
      getPositionsX (read junk ⟨writeBinary st, txt⟩ st).2 i =
        getPositionsX st i ∧
      getPositionsY (read junk ⟨writeBinary st, txt⟩ st).2 i =
        getPositionsY st i ∧
      getPositionsZ (read junk ⟨writeBinary st, txt⟩ st).2 i =
        getPositionsZ st i ∧
      getValues (read junk ⟨writeBinary st, txt⟩ st).2 i = getValues st i ∧
      (eps < absQ (getRadii st i) →
        getRadii (read junk ⟨writeBinary st, txt⟩ st).2 i =
          1 / getRadii st i) ∧
      (¬ eps < absQ (getRadii st i) →
        getRadii (read junk ⟨writeBinary st, txt⟩ st).2 i =
          (if st.numEvents < st.allocSize then getRadii st i
           else junk (i + st.numEvents * 3)))) := by
  have h1 : (read junk ⟨writeBinary st, txt⟩ st).1 = true := by
    rw [read_writeBinary]
  have h2 : (read junk ⟨writeBinary st, txt⟩ st).2 =
      applyRows (fun i => (writeBinary st).floats (2 + 5 * i))
                (fun i => (writeBinary st).floats (2 + 5 * i + 1))
                (fun i => (writeBinary st).floats (2 + 5 * i + 2))
                (fun i => (writeBinary st).floats (2 + 5 * i + 3))
                (fun i => (writeBinary st).floats (2 + 5 * i + 4))
                st.numEvents (resize junk st.numEvents st) := by
    rw [read_writeBinary]
  refine ⟨h1, ?_, ?_⟩
  · rw [h2, applyRows_numEvents, resize_numEvents]
  intro i hi
  obtain ⟨hU, hS⟩ := applyRows_events
    (fun i => (writeBinary st).floats (2 + 5 * i))
    (fun i => (writeBinary st).floats (2 + 5 * i + 1))
    (fun i => (writeBinary st).floats (2 + 5 * i + 2))
    (fun i => (writeBinary st).floats (2 + 5 * i + 3))
    (fun i => (writeBinary st).floats (2 + 5 * i + 4))
    st.numEvents st.numEvents le_rfl (resize junk st.numEvents st)
    (resize_numEvents _ _ _)
  obtain ⟨s0, s1, s2, s4, s3⟩ := hS i hi
  have hnum : (read junk ⟨writeBinary st, txt⟩ st).2.numEvents =
      st.numEvents := by
    rw [h2, applyRows_numEvents, resize_numEvents]
  have hR3 : (writeBinary st).floats (2 + 5 * i + 3) =
      st.events (i + st.numEvents * 3) := write_floats st i 3 hi (by omega)
  simp only [hR3] at s3
  refine ⟨?_, ?_, ?_, ?_, ?_, ?_⟩
  · rw [getPositionsX, getPositionsX, hnum, h2, s0]
    exact write_floats st i 0 hi (by omega)
  · rw [getPositionsY, getPositionsY, hnum, h2, s1]
    exact write_floats st i 1 hi (by omega)
  · rw [getPositionsZ, getPositionsZ, hnum, h2, s2]
    exact write_floats st i 2 hi (by omega)
  · rw [getValues, getValues, hnum, h2, s4]
    exact write_floats st i 4 hi (by omega)
  · intro h
    rw [getRadii_def] at h
    rw [getRadii_def, getRadii_def, hnum, h2, s3, if_pos h]
  · intro h
    rw [getRadii_def] at h
    rw [getRadii_def, getRadii_def, hnum, h2, s3, if_neg h]
    by_cases hA : st.numEvents < st.allocSize
    · rw [if_pos hA]
      simp only [resize]
      rw [if_pos hA]
    · rw [if_neg hA]
      simp only [resize]
      rw [if_neg hA]

/-- Claim C1, witness: the amended theorem at a one-event buffer with
stored radius `2`: read-back radius is `1/2`, position-x is
preserved. -/
theorem C1_witness :
    (0 : Nat) <
      (⟨1, 1, 1, fun k => if k = 3 then 2 else 0, none⟩ : Buffer).numEvents ∧
    eps < absQ (getRadii
      (⟨1, 1, 1, fun k => if k = 3 then 2 else 0, none⟩ : Buffer) 0) ∧
    getRadii (read (fun _ => 99)
        ⟨writeBinary ⟨1, 1, 1, fun k => if k = 3 then 2 else 0, none⟩, []⟩
        ⟨1, 1, 1, fun k => if k = 3 then 2 else 0, none⟩).2 0 = 1 / 2 ∧
    getPositionsX (read (fun _ => 99)
        ⟨writeBinary ⟨1, 1, 1, fun k => if k = 3 then 2 else 0, none⟩, []⟩
        ⟨1, 1, 1, fun k => if k = 3 then 2 else 0, none⟩).2 0 =
      getPositionsX
        (⟨1, 1, 1, fun k => if k = 3 then 2 else 0, none⟩ : Buffer) 0 := by
  have h := C1_roundTrip_amended (fun _ => 99)
    ⟨1, 1, 1, fun k => if k = 3 then 2 else 0, none⟩ []
  obtain ⟨p0, p1, p2, p4, pr, _⟩ := h.2.2 0 (by decide)
  have heps : eps < absQ (getRadii
      (⟨1, 1, 1, fun k => if k = 3 then 2 else 0, none⟩ : Buffer) 0) := by
    norm_num [getRadii_def, eps, absQ]
  refine ⟨by decide, heps, ?_, p0⟩
  rw [pr heps]
  norm_num [getRadii_def]

end Fivox
